import Mathlib

/-!
Verification of the pyspecies specification: a 1-D two-species
cross-diffusion (SKT) population simulator.  The repository snapshot only
ships the example driver script; the core library (grid, model, simulator,
time stepper) is reconstructed here from the specification, with exact
rational arithmetic standing in for floating point.
-/

set_option autoImplicit false

namespace PySpecies

/-- Modelled from the spec: the error kinds of section 7 of the spec
(`InvalidDomainError`, `InvalidModelError`, `InvalidInitialConditionError`,
`NotInitializedError`, `NumericalInstabilityError`); the library code that
raises them is missing from the snapshot. -/
inductive SimError where
  | invalidDomain
  | invalidModel
  | invalidInitialCond
  | notInit
  | numericalInstability
  deriving DecidableEq, Repr

/-- Modelled from the spec: the immutable 1-D spatial discretization
`(lower, upper, pointCount)`; the Grid component is missing from the
snapshot. -/
structure Grid where
  lower : ℚ
  upper : ℚ
  pointCount : ℕ
  deriving DecidableEq, Repr

/-- Modelled from the spec: Grid construction fails with
`InvalidDomainError` if `pointCount < 3` or `upper <= lower`. -/
def mkGrid (lower upper : ℚ) (pointCount : ℕ) : Except SimError Grid :=
  if pointCount < 3 ∨ upper ≤ lower then .error .invalidDomain
  else .ok ⟨lower, upper, pointCount⟩

/-- Modelled from the spec: `spacing = (upper-lower)/(pointCount-1)`. -/
def Grid.spacing (g : Grid) : ℚ := (g.upper - g.lower) / ((g.pointCount : ℚ) - 1)

/-- Modelled from the spec: the ordered grid point coordinates, inclusive
of both domain ends. -/
def Grid.points (g : Grid) : List ℚ :=
  (List.range g.pointCount).map (fun (j : ℕ) => g.lower + (j : ℚ) * g.spacing)

/-- Modelled from the spec: sampling an initial-condition closure at every
grid point. -/
def Grid.sample (g : Grid) (f : ℚ → ℚ) : List ℚ := g.points.map f

/-- Modelled from the spec: the SKT model's 2×3 diffusion matrix `D` and
2×3 reaction matrix `R`; the Model component is missing from the
snapshot. -/
structure SKT where
  D : Fin 2 → Fin 3 → ℚ
  R : Fin 2 → Fin 3 → ℚ

/-- Modelled from the spec: the coupled density vectors of the two species
at one time instant. -/
structure State where
  u : List ℚ
  v : List ℚ
  deriving DecidableEq, Repr

/-- Modelled from the spec: the per-point diffusion coefficient array for
species `i`, `D[i,0] + D[i,1]*densityOfOtherSpecies +
D[i,2]*densityOfSameSpecies`; species 0 has density `u`, species 1 has
density `v`. -/
def SKT.diffCoefArr (m : SKT) (i : Fin 2) (s : State) : List ℚ :=
  if i = 0 then
    List.zipWith (fun ui vi => m.D 0 0 + m.D 0 1 * vi + m.D 0 2 * ui) s.u s.v
  else
    List.zipWith (fun ui vi => m.D 1 0 + m.D 1 1 * ui + m.D 1 2 * vi) s.u s.v

/-- Modelled from the spec: the per-point reaction rate array for species
`i`, `density_i * (R[i,0] - R[i,1]*density_i - R[i,2]*density_other)`. -/
def SKT.reactArr (m : SKT) (i : Fin 2) (s : State) : List ℚ :=
  if i = 0 then
    List.zipWith (fun ui vi => ui * (m.R 0 0 - m.R 0 1 * ui - m.R 0 2 * vi)) s.u s.v
  else
    List.zipWith (fun ui vi => vi * (m.R 1 0 - m.R 1 1 * vi - m.R 1 2 * ui)) s.u s.v

/-- Modelled from the spec: interface diffusivities, the average of the
two adjacent per-point coefficients, one value per interior interface. -/
def interCoef (a : List ℚ) : List ℚ :=
  List.zipWith (fun p q => (p + q) / 2) a a.tail

/-- Modelled from the spec: the flux through each interior interface,
`coefficient * (right density - left density)`; the two boundary
interfaces carry no flux (zero-flux Neumann boundary). -/
def fluxes (c x : List ℚ) : List ℚ :=
  List.zipWith (· * ·) c (List.zipWith (fun p q => q - p) x x.tail)

/-- Modelled from the spec: the per-point divergence of the interface
fluxes, with zero flux at the two domain ends. -/
def divFlux (F : List ℚ) : List ℚ :=
  List.zipWith (fun p q => p - q) (F ++ [0]) (0 :: F)

/-- Modelled from the spec: the discrete Neumann diffusion operator in
flux form, scaled by `1/h²`. -/
def applyL (a x : List ℚ) (h2 : ℚ) : List ℚ :=
  (divFlux (fluxes (interCoef a) x)).map (fun y => y / h2)

/-- Modelled from the spec: the semi-implicit system operator
`x - dt * L x`, whose solution is the next density vector. -/
def applyA (a x : List ℚ) (dt h2 : ℚ) : List ℚ :=
  List.zipWith (fun xi li => xi - dt * li) x (applyL a x h2)

/-- Modelled from the spec: subdiagonal of the tridiagonal semi-implicit
matrix built from interface coefficients `cs` and ratio `k = dt/h²`. -/
def triSub (cs : List ℚ) (k : ℚ) : List ℚ := 0 :: cs.map (fun c => -(k * c))

/-- Modelled from the spec: superdiagonal of the tridiagonal matrix. -/
def triSup (cs : List ℚ) (k : ℚ) : List ℚ := cs.map (fun c => -(k * c)) ++ [0]

/-- Modelled from the spec: diagonal of the tridiagonal matrix; the
boundary rows see only one interface coefficient (zero-flux). -/
def triDiag (cs : List ℚ) (k : ℚ) : List ℚ :=
  List.zipWith (fun l r => 1 + k * (l + r)) (0 :: cs) (cs ++ [0])

/-- Modelled from the spec: forward-elimination sweep of the direct
banded (Thomas) solve; fails on a zero pivot, which models the
`NumericalInstabilityError` raised on a singular or numerically
degenerate system. -/
def sweep : List (ℚ × ℚ × ℚ × ℚ) → ℚ → ℚ → Option (List (ℚ × ℚ))
  | [], _, _ => some []
  | (a, bb, c, d) :: rest, cp, dp =>
    let den := bb - a * cp
    if den = 0 then none
    else
      let c' := c / den
      let d' := (d - a * dp) / den
      (sweep rest c' d').map (fun l => (c', d') :: l)

/-- Modelled from the spec: back-substitution phase of the Thomas solve. -/
def backSub (cds : List (ℚ × ℚ)) : List ℚ :=
  cds.reverse.foldl (fun acc cd => (cd.2 - cd.1 * acc.headD 0) :: acc) []

/-- Modelled from the spec: the exact direct tridiagonal solve used for
the implicit diffusion step. -/
def thomas (lo di up b : List ℚ) : Option (List ℚ) :=
  (sweep (List.zip lo (List.zip di (List.zip up b))) 0 0).map backSub

/-- Modelled from the spec: one semi-implicit diffusion sub-step for a
single species: solve `(I - dt*L) x = b` by the direct banded solve and
accept `x` only if it exactly satisfies the system (otherwise the step
fails with `NumericalInstabilityError` instead of propagating a bad
solve). -/
def stepSpecies (a b : List ℚ) (dt h2 : ℚ) : Except SimError (List ℚ) :=
  let cs := interCoef a
  let k := dt / h2
  match thomas (triSub cs k) (triDiag cs k) (triSup cs k) b with
  | none => .error .numericalInstability
  | some x =>
    if x.length = b.length ∧ applyA a x dt h2 = b then .ok x
    else .error .numericalInstability

/-- Modelled from the spec: one full time step — diffusion coefficients
are evaluated at the previous step's densities (semi-implicit
linearization), the reaction term is added explicitly, and each species'
tridiagonal system is solved exactly. -/
def stepState (m : SKT) (h2 dt : ℚ) (s : State) : Except SimError State :=
  match stepSpecies (m.diffCoefArr 0 s)
      (List.zipWith (fun ui ri => ui + dt * ri) s.u (m.reactArr 0 s)) dt h2 with
  | .error e => .error e
  | .ok u' =>
    match stepSpecies (m.diffCoefArr 1 s)
        (List.zipWith (fun vi ri => vi + dt * ri) s.v (m.reactArr 1 s)) dt h2 with
    | .error e => .error e
    | .ok v' => .ok ⟨u', v'⟩

/-- Modelled from the spec: the Simulator — it owns one Grid, one Model
and the append-only TimeSeries of `(time, State)` pairs; an empty
TimeSeries is the `Uninitialized` logical state, a non-empty one is
`Ready`. -/
structure Pop where
  grid : Grid
  model : SKT
  ts : List (ℚ × State)

/-- Modelled from the spec: the inner loop of `advance` — run the given
number of steps of size `dt`, collecting the accepted `(time, State)`
entries; on a failing step the failing State is discarded and the error
is surfaced. -/
def advanceLoop (m : SKT) (h2 dt : ℚ) : ℕ → ℚ → State → List (ℚ × State) × Option SimError
  | 0, _, _ => ([], none)
  | steps + 1, t, s =>
    match stepState m h2 dt s with
    | .error e => ([], some e)
    | .ok s' =>
      let r := advanceLoop m h2 dt steps (t + dt) s'
      ((t + dt, s') :: r.1, r.2)

/-- Modelled from the spec: `advance(duration, steps)` — resume from the
last recorded entry, run `steps` sub-steps of size `dt = duration/steps`,
and append the accepted entries to the TimeSeries; calling it on an
uninitialized Simulator fails with `NotInitializedError`. -/
def advance (p : Pop) (duration : ℚ) (steps : ℕ) : Pop × Option SimError :=
  match p.ts.getLast? with
  | none => (p, some .notInit)
  | some (t, s) =>
    let dt := duration / (steps : ℚ)
    let r := advanceLoop p.model (p.grid.spacing ^ 2) dt steps t s
    (⟨p.grid, p.model, p.ts ++ r.1⟩, r.2)

/-- Modelled from the spec: initialization — sample `u0` and `v0` on the
grid to build the `t = 0` State and seed the TimeSeries with it (in exact
rational arithmetic every sampled density is finite, so the non-finite
initial-condition failure cannot arise). -/
def initPop (g : Grid) (m : SKT) (u0 v0 : ℚ → ℚ) : Pop :=
  ⟨g, m, [(0, ⟨g.sample u0, g.sample v0⟩)]⟩

/-- Modelled from the spec: the public construction surface `pop.Pop` —
build the Grid from the space bounds and point count, then immediately
initialize, so the returned Simulator is Ready. -/
def mkPop (lower upper : ℚ) (n : ℕ) (u0 v0 : ℚ → ℚ) (m : SKT) : Except SimError Pop :=
  (mkGrid lower upper n).map (fun g => initPop g m u0 v0)

/-- Modelled from the spec: a sequence of back-to-back `advance` calls on
the same Simulator. -/
def runCalls (p : Pop) (cmds : List (ℚ × ℕ)) : Pop :=
  cmds.foldl (fun q c => (advance q c.1 c.2).1) p

/-- Modelled from the spec: the density vector of species `i` (species 0
is `u`, species 1 is `v`). -/
def State.dens (s : State) (i : Fin 2) : List ℚ := if i = 0 then s.u else s.v

/-- Example grid used as a concrete witness. -/
def wGrid : Grid := ⟨0, 1, 3⟩

/-- Example model and state used as concrete witnesses. -/
def wModel : SKT := ⟨![![1, 2, 3], ![4, 5, 6]], ![![7, 8, 9], ![10, 11, 12]]⟩

/-- Degenerate model (no diffusion, no reaction) used as a concrete
witness: every step solves the identity system. -/
def wModel0 : SKT := ⟨![![0, 0, 0], ![0, 0, 0]], ![![0, 0, 0], ![0, 0, 0]]⟩

/-- The `t = 0` State of `wPop0`. -/
def wS0 : State := ⟨wGrid.sample (fun _ => 1), wGrid.sample (fun _ => 1)⟩

/-- Ready simulator used as a concrete witness. -/
def wPop0 : Pop := initPop wGrid wModel0 (fun _ => 1) (fun _ => 1)

/-- Pure-diffusion model (constant coefficients, zero reaction) used as
a concrete witness for mass conservation. -/
def wModelD : SKT := ⟨![![1, 0, 0], ![1, 0, 0]], ![![0, 0, 0], ![0, 0, 0]]⟩

/-- The `t = 0` State of `wPopD`. -/
def wSD : State := ⟨wGrid.sample (fun _ => 1), wGrid.sample (fun _ => 2)⟩

/-- Ready pure-diffusion simulator used as a concrete witness. -/
def wPopD : Pop := initPop wGrid wModelD (fun _ => 1) (fun _ => 2)

/-- Cross-diffusion model whose effective coefficients go negative on
the chosen initial data: `advance(1/2, 1)` succeeds while
`advance(1/2, 2)` hits a singular system. -/
def cModel : SKT := ⟨![![0, 1, 0], ![0, 0, 0]], ![![0, 0, 0], ![0, 0, 0]]⟩

/-- Ready simulator exhibiting the non-monotone stability behaviour. -/
def cPop : Pop := initPop wGrid cModel (fun _ => 0) (fun _ => -1)

/-- Example state used as a concrete witness. -/
def wState : State := ⟨[1, 2], [3, 4]⟩

/-- C2: the local diffusion coefficient computed for species `i` at grid
point `j` is exactly the affine function
`D[i,0] + D[i,1]*densityOfOtherSpecies + D[i,2]*densityOfSameSpecies` of
the two local densities. -/
theorem diffCoef_affine (m : SKT) (s : State) (i : Fin 2) (j : ℕ)
    (hs : j < (s.dens i).length) (ho : j < (s.dens (1 - i)).length) :
    ∃ hj : j < (m.diffCoefArr i s).length,
      (m.diffCoefArr i s).get ⟨j, hj⟩ =
        m.D i 0 + m.D i 1 * (s.dens (1 - i)).get ⟨j, ho⟩
          + m.D i 2 * (s.dens i).get ⟨j, hs⟩ := by
  fin_cases i <;> simp [State.dens] at hs ho <;>
    refine ⟨by simp [SKT.diffCoefArr]; omega, ?_⟩ <;>
    simp [SKT.diffCoefArr, State.dens, List.get_eq_getElem, List.getElem_zipWith]

/-- Witness for C2 at a concrete model, state and grid point. -/
theorem diffCoef_affine_witness :
    ∃ hj : 1 < (wModel.diffCoefArr 0 wState).length,
      (wModel.diffCoefArr 0 wState).get ⟨1, hj⟩ =
        wModel.D 0 0 + wModel.D 0 1 * (wState.dens 1).get ⟨1, by decide⟩
          + wModel.D 0 2 * (wState.dens 0).get ⟨1, by decide⟩ := by
  simpa using diffCoef_affine wModel wState 0 1 (by decide) (by decide)

/-- C3: the local reaction rate computed for species `i` at grid point
`j` is exactly `density_i * (R[i,0] - R[i,1]*density_i -
R[i,2]*density_other)`. -/
theorem reactRate_formula (m : SKT) (s : State) (i : Fin 2) (j : ℕ)
    (hs : j < (s.dens i).length) (ho : j < (s.dens (1 - i)).length) :
    ∃ hj : j < (m.reactArr i s).length,
      (m.reactArr i s).get ⟨j, hj⟩ =
        (s.dens i).get ⟨j, hs⟩ *
          (m.R i 0 - m.R i 1 * (s.dens i).get ⟨j, hs⟩
            - m.R i 2 * (s.dens (1 - i)).get ⟨j, ho⟩) := by
  fin_cases i <;> simp [State.dens] at hs ho <;>
    refine ⟨by simp [SKT.reactArr]; omega, ?_⟩ <;>
    simp [SKT.reactArr, State.dens, List.get_eq_getElem, List.getElem_zipWith]

/-- Witness for C3 at a concrete model, state and grid point. -/
theorem reactRate_formula_witness :
    ∃ hj : 0 < (wModel.reactArr 1 wState).length,
      (wModel.reactArr 1 wState).get ⟨0, hj⟩ =
        (wState.dens 1).get ⟨0, by decide⟩ *
          (wModel.R 1 0 - wModel.R 1 1 * (wState.dens 1).get ⟨0, by decide⟩
            - wModel.R 1 2 * (wState.dens 0).get ⟨0, by decide⟩) := by
  simpa using reactRate_formula wModel wState 1 0 (by decide) (by decide)

/-- C6: Grid construction from `(lower, upper, pointCount)` fails with
`InvalidDomainError` exactly when `pointCount < 3` or `upper ≤ lower`,
succeeds exactly when `pointCount ≥ 3` and `upper > lower`, and in
particular `pointCount = 2` always fails with `InvalidDomainError`. -/
theorem mkGrid_invalidDomain_iff (lower upper : ℚ) (n : ℕ) :
    (mkGrid lower upper n = Except.error SimError.invalidDomain ↔ n < 3 ∨ upper ≤ lower) ∧
    ((∃ g, mkGrid lower upper n = Except.ok g) ↔ 3 ≤ n ∧ lower < upper) ∧
    mkGrid lower upper 2 = Except.error SimError.invalidDomain := by
  refine ⟨?_, ?_, ?_⟩
  · by_cases h : n < 3 ∨ upper ≤ lower <;> simp [mkGrid, h]
  · constructor
    · rintro ⟨g, hg⟩
      by_cases h : n < 3 ∨ upper ≤ lower
      · simp [mkGrid, h] at hg
      · push_neg at h
        exact ⟨by omega, h.2⟩
    · rintro ⟨h3, hlt⟩
      have h : ¬(n < 3 ∨ upper ≤ lower) := by
        push_neg
        exact ⟨by omega, hlt⟩
      exact ⟨⟨lower, upper, n⟩, by simp [mkGrid, h]⟩
  · simp [mkGrid]

/-- The `j`-th grid point is `lower + j * spacing`. -/
theorem Grid.points_get (g : Grid) (j : ℕ) (h : j < g.points.length) :
    g.points.get ⟨j, h⟩ = g.lower + (j : ℚ) * g.spacing := by
  rw [List.get_eq_getElem]
  simp only [Grid.points, List.getElem_map, List.getElem_range]

/-- C8: for every valid Grid the spacing equals
`(upper - lower)/(pointCount - 1)` and is positive, the points form a
strictly increasing uniformly spaced sequence from `lower` to `upper`
with `pointCount` entries, and sampling any closure yields exactly
`pointCount` densities. -/
theorem grid_points_spec (g : Grid) (h3 : 3 ≤ g.pointCount) (hlt : g.lower < g.upper) :
    g.spacing = (g.upper - g.lower) / ((g.pointCount : ℚ) - 1) ∧
    0 < g.spacing ∧
    g.points.length = g.pointCount ∧
    List.Chain' (· < ·) g.points ∧
    (∀ (j : ℕ) (h1 : j + 1 < g.points.length) (h0 : j < g.points.length),
        g.points.get ⟨j + 1, h1⟩ - g.points.get ⟨j, h0⟩ = g.spacing) ∧
    (∀ h0 : 0 < g.points.length, g.points.get ⟨0, h0⟩ = g.lower) ∧
    (∀ hl : g.pointCount - 1 < g.points.length,
        g.points.get ⟨g.pointCount - 1, hl⟩ = g.upper) ∧
    (∀ f : ℚ → ℚ, (g.sample f).length = g.pointCount) := by
  have hc3 : (3 : ℚ) ≤ (g.pointCount : ℚ) := by exact_mod_cast h3
  have hn0 : (0 : ℚ) < (g.pointCount : ℚ) - 1 := by linarith
  have hsp : 0 < g.spacing := div_pos (by linarith) hn0
  refine ⟨rfl, hsp, by simp only [Grid.points, List.length_map, List.length_range],
    ?_, ?_, ?_, ?_, ?_⟩
  · refine List.Pairwise.chain' ?_
    simp only [Grid.points]
    refine List.pairwise_map.mpr ?_
    refine (List.pairwise_lt_range g.pointCount).imp ?_
    intro a b hab
    have hq : (a : ℚ) < (b : ℚ) := by exact_mod_cast hab
    exact add_lt_add_left (mul_lt_mul_of_pos_right hq hsp) _
  · intro j h1 h0
    rw [Grid.points_get, Grid.points_get]
    push_cast
    ring
  · intro h0
    rw [Grid.points_get]
    simp
  · intro hl
    have h1n : 1 ≤ g.pointCount := by omega
    have hcast : ((g.pointCount - 1 : ℕ) : ℚ) = (g.pointCount : ℚ) - 1 := by
      push_cast [h1n]
      ring
    rw [Grid.points_get, Grid.spacing, hcast, mul_comm, div_mul_cancel₀ _ (ne_of_gt hn0)]
    ring
  · intro f
    simp only [Grid.sample, Grid.points, List.length_map, List.length_range]

/-- Witness for C8 at a concrete grid. -/
theorem grid_points_spec_witness :
    wGrid.spacing = (wGrid.upper - wGrid.lower) / ((wGrid.pointCount : ℚ) - 1) ∧
    0 < wGrid.spacing ∧
    wGrid.points.length = wGrid.pointCount ∧
    List.Chain' (· < ·) wGrid.points ∧
    (∀ (j : ℕ) (h1 : j + 1 < wGrid.points.length) (h0 : j < wGrid.points.length),
        wGrid.points.get ⟨j + 1, h1⟩ - wGrid.points.get ⟨j, h0⟩ = wGrid.spacing) ∧
    (∀ h0 : 0 < wGrid.points.length, wGrid.points.get ⟨0, h0⟩ = wGrid.lower) ∧
    (∀ hl : wGrid.pointCount - 1 < wGrid.points.length,
        wGrid.points.get ⟨wGrid.pointCount - 1, hl⟩ = wGrid.upper) ∧
    (∀ f : ℚ → ℚ, (wGrid.sample f).length = wGrid.pointCount) :=
  grid_points_spec wGrid (by norm_num [wGrid]) (by norm_num [wGrid])

/-- A failing single-species solve only ever reports
`NumericalInstabilityError`. -/
theorem stepSpecies_error_eq (a b : List ℚ) (dt h2 : ℚ) (e : SimError)
    (h : stepSpecies a b dt h2 = Except.error e) : e = SimError.numericalInstability := by
  simp only [stepSpecies] at h
  split at h
  · exact (Except.error.injEq _ _).mp h |>.symm
  · split at h
    · cases h
    · exact (Except.error.injEq _ _).mp h |>.symm

/-- A failing full time step only ever reports
`NumericalInstabilityError`. -/
theorem stepState_error_eq (m : SKT) (h2 dt : ℚ) (s : State) (e : SimError)
    (h : stepState m h2 dt s = Except.error e) : e = SimError.numericalInstability := by
  unfold stepState at h
  split at h
  · cases h
    exact stepSpecies_error_eq _ _ _ _ _ (by assumption)
  · split at h
    · cases h
      exact stepSpecies_error_eq _ _ _ _ _ (by assumption)
    · cases h

/-- The advance loop never reports `NotInitializedError`. -/
theorem advanceLoop_ne_notInit (m : SKT) (h2 dt : ℚ) (k : ℕ) (t : ℚ) (s : State) :
    (advanceLoop m h2 dt k t s).2 ≠ some SimError.notInit := by
  induction k generalizing t s with
  | zero => simp [advanceLoop]
  | succ k ih =>
    simp only [advanceLoop]
    cases hstep : stepState m h2 dt s with
    | error e =>
      simp only [ne_eq, Option.some.injEq]
      intro he
      exact SimError.noConfusion (he ▸ stepState_error_eq m h2 dt s e hstep)
    | ok s' =>
      simpa using ih (t + dt) s'

/-- Advancing leaves the TimeSeries empty exactly when it already was. -/
theorem advance_ts_nil_iff (p : Pop) (d : ℚ) (k : ℕ) :
    (advance p d k).1.ts = [] ↔ p.ts = [] := by
  cases hl : p.ts.getLast? with
  | none =>
    have : p.ts = [] := List.getLast?_eq_none_iff.mp hl
    simp [advance, hl, this]
  | some e =>
    obtain ⟨t, s⟩ := e
    have hne : p.ts ≠ [] := by
      intro hnil
      rw [hnil] at hl
      cases hl
    simp [advance, hl, hne]

/-- `advance` reports `NotInitializedError` exactly on an empty
TimeSeries. -/
theorem advance_notInit_iff (p : Pop) (d : ℚ) (k : ℕ) :
    (advance p d k).2 = some SimError.notInit ↔ p.ts = [] := by
  cases hl : p.ts.getLast? with
  | none =>
    have : p.ts = [] := List.getLast?_eq_none_iff.mp hl
    simp [advance, hl, this]
  | some e =>
    obtain ⟨t, s⟩ := e
    have hne : p.ts ≠ [] := by
      intro hnil
      rw [hnil] at hl
      cases hl
    simp only [advance, hl]
    constructor
    · intro h
      exact absurd h (advanceLoop_ne_notInit _ _ _ _ _ _)
    · intro h
      exact absurd h hne

/-- Any number of back-to-back `advance` calls leaves the TimeSeries
empty exactly when it started empty. -/
theorem runCalls_ts_nil_iff (p : Pop) (cmds : List (ℚ × ℕ)) :
    (runCalls p cmds).ts = [] ↔ p.ts = [] := by
  induction cmds generalizing p with
  | nil => simp [runCalls]
  | cons c cs ih =>
    simp only [runCalls, List.foldl_cons] at ih ⊢
    rw [ih, advance_ts_nil_iff]

/-- C7: a Simulator with an empty TimeSeries is Uninitialized —
`advance` on it fails with `NotInitializedError` and only then; once the
TimeSeries is seeded the Simulator stays Ready through any single
`advance` and through arbitrarily many back-to-back `advance` calls. -/
theorem advance_state_machine (p : Pop) (d : ℚ) (k : ℕ) (cmds : List (ℚ × ℕ)) :
    ((advance p d k).2 = some SimError.notInit ↔ p.ts = []) ∧
    ((advance p d k).1.ts = [] ↔ p.ts = []) ∧
    ((runCalls p cmds).ts = [] ↔ p.ts = []) :=
  ⟨advance_notInit_iff p d k, advance_ts_nil_iff p d k, runCalls_ts_nil_iff p cmds⟩

/-- Every entry produced by the advance loop is the result of an
accepted step. -/
theorem advanceLoop_mem_ok (m : SKT) (h2 dt : ℚ) (k : ℕ) (t : ℚ) (s : State) :
    ∀ e ∈ (advanceLoop m h2 dt k t s).1,
      ∃ s0, stepState m h2 dt s0 = Except.ok e.2 := by
  induction k generalizing t s with
  | zero => simp [advanceLoop]
  | succ k ih =>
    cases hstep : stepState m h2 dt s with
    | error e0 => simp [advanceLoop, hstep]
    | ok s' =>
      simp only [advanceLoop, hstep]
      intro e he
      rcases List.mem_cons.mp he with he | he
      · exact ⟨s, by rw [he, hstep]⟩
      · exact ih (t + dt) s' e he

/-- The advance loop's recorded times are strictly increasing and start
strictly after the resumption time. -/
theorem advanceLoop_chain (m : SKT) (h2 dt : ℚ) (hdt : 0 < dt) (k : ℕ) (t : ℚ) (s : State) :
    List.Chain' (fun a b : ℚ × State => a.1 < b.1) (advanceLoop m h2 dt k t s).1 ∧
    ∀ e ∈ (advanceLoop m h2 dt k t s).1.head?, t < e.1 := by
  induction k generalizing t s with
  | zero => simp [advanceLoop]
  | succ k ih =>
    cases hstep : stepState m h2 dt s with
    | error e0 => simp [advanceLoop, hstep]
    | ok s' =>
      obtain ⟨ihc, ihh⟩ := ih (t + dt) s'
      constructor
      · simp only [advanceLoop, hstep]
        refine List.chain'_cons'.mpr ⟨?_, ihc⟩
        intro y hy
        exact ihh y hy
      · simp only [advanceLoop, hstep, List.head?_cons]
        intro e he
        have he' : e = (t + dt, s') := by
          simpa [eq_comm] using he
        rw [he']
        simpa using hdt

/-- Unfolding `advance` on a Ready simulator. -/
theorem advance_ts_eq (p : Pop) (d : ℚ) (k : ℕ) (t : ℚ) (s : State)
    (hlast : p.ts.getLast? = some (t, s)) :
    (advance p d k).1.ts
      = p.ts ++ (advanceLoop p.model (p.grid.spacing ^ 2) (d / (k : ℚ)) k t s).1 ∧
    (advance p d k).2 = (advanceLoop p.model (p.grid.spacing ^ 2) (d / (k : ℚ)) k t s).2 := by
  constructor <;> simp [advance, hlast]

/-- Any `advance` call — including a failing one — only appends
accepted steps' States at the end of the TimeSeries. -/
theorem advance_append_accepted (p : Pop) (d : ℚ) (k : ℕ) :
    ∃ tail, (advance p d k).1.ts = p.ts ++ tail ∧
      ∀ e ∈ tail, ∃ s0,
        stepState p.model (p.grid.spacing ^ 2) (d / (k : ℚ)) s0 = Except.ok e.2 := by
  cases hl : p.ts.getLast? with
  | none => exact ⟨[], by simp [advance, hl], by simp⟩
  | some e0 =>
    obtain ⟨t, s⟩ := e0
    obtain ⟨hts, _⟩ := advance_ts_eq p d k t s hl
    exact ⟨_, hts, advanceLoop_mem_ok _ _ _ k t s⟩

/-- An in-range `advance` call preserves strictly increasing recorded
times. -/
theorem advance_chain (p : Pop) (d : ℚ) (k : ℕ)
    (hc : List.Chain' (fun a b : ℚ × State => a.1 < b.1) p.ts)
    (hd : 0 < d) (hk : 1 ≤ k) :
    List.Chain' (fun a b : ℚ × State => a.1 < b.1) (advance p d k).1.ts := by
  cases hl : p.ts.getLast? with
  | none => simpa [advance, hl] using hc
  | some e0 =>
    obtain ⟨t, s⟩ := e0
    obtain ⟨hts, _⟩ := advance_ts_eq p d k t s hl
    have hdt : 0 < d / (k : ℚ) := by
      apply div_pos hd
      exact_mod_cast Nat.pos_of_ne_zero (by omega)
    obtain ⟨hchain, hhead⟩ :=
      advanceLoop_chain p.model (p.grid.spacing ^ 2) (d / (k : ℚ)) hdt k t s
    rw [hts]
    refine List.chain'_append.mpr ⟨hc, hchain, ?_⟩
    intro x hx y hy
    have hx' : x = (t, s) := by
      rw [hl] at hx
      simpa [eq_comm] using hx
    rw [hx']
    exact hhead y hy

/-- A sequence of in-range `advance` calls preserves strictly
increasing recorded times. -/
theorem runCalls_chain (p : Pop) (cmds : List (ℚ × ℕ))
    (hc : List.Chain' (fun a b : ℚ × State => a.1 < b.1) p.ts)
    (hcm : ∀ c ∈ cmds, 0 < c.1 ∧ 1 ≤ c.2) :
    List.Chain' (fun a b : ℚ × State => a.1 < b.1) (runCalls p cmds).ts := by
  induction cmds generalizing p with
  | nil => simpa [runCalls] using hc
  | cons c cs ih =>
    simp only [runCalls, List.foldl_cons] at ih ⊢
    obtain ⟨hd, hk⟩ := hcm c (by simp)
    exact ih ((advance p c.1 c.2).1) (advance_chain p c.1 c.2 hc hd hk)
      (fun c' hc' => hcm c' (by simp [hc']))

/-- C5: the TimeSeries grows only by appending at the end (existing
entries are never mutated or reordered), every appended State is the
result of an accepted step — a failing step's State is discarded, never
appended — and recorded times stay strictly increasing after the
initial seeding and after every sequence of in-range `advance` calls. -/
theorem timeSeries_invariants (p : Pop) (d : ℚ) (k : ℕ) (cmds : List (ℚ × ℕ)) :
    (∃ tail, (advance p d k).1.ts = p.ts ++ tail ∧
       ∀ e ∈ tail, ∃ s0,
         stepState p.model (p.grid.spacing ^ 2) (d / (k : ℚ)) s0 = Except.ok e.2) ∧
    (List.Chain' (fun a b : ℚ × State => a.1 < b.1) p.ts → 0 < d → 1 ≤ k →
       List.Chain' (fun a b : ℚ × State => a.1 < b.1) (advance p d k).1.ts) ∧
    (∀ (g : Grid) (m : SKT) (u0 v0 : ℚ → ℚ),
       List.Chain' (fun a b : ℚ × State => a.1 < b.1) (initPop g m u0 v0).ts) ∧
    (List.Chain' (fun a b : ℚ × State => a.1 < b.1) p.ts →
       (∀ c ∈ cmds, 0 < c.1 ∧ 1 ≤ c.2) →
       List.Chain' (fun a b : ℚ × State => a.1 < b.1) (runCalls p cmds).ts) :=
  ⟨advance_append_accepted p d k,
   advance_chain p d k,
   fun g m u0 v0 => by simp [initPop],
   runCalls_chain p cmds⟩

/-- A successful advance loop produces exactly `k` entries, at times
`t + (j+1)*dt`, the first being the accepted step from the resumption
State. -/
theorem advanceLoop_ok_spec (m : SKT) (h2 dt : ℚ) (k : ℕ) (t : ℚ) (s : State)
    (h : (advanceLoop m h2 dt k t s).2 = none) :
    (advanceLoop m h2 dt k t s).1.length = k ∧
    (∀ (j : ℕ) (hj : j < (advanceLoop m h2 dt k t s).1.length),
        ((advanceLoop m h2 dt k t s).1.get ⟨j, hj⟩).1 = t + ((j : ℚ) + 1) * dt) ∧
    (∀ e ∈ (advanceLoop m h2 dt k t s).1.getLast?, e.1 = t + (k : ℚ) * dt) ∧
    (1 ≤ k → ∃ s1, stepState m h2 dt s = Except.ok s1 ∧
        (advanceLoop m h2 dt k t s).1.head? = some (t + dt, s1)) := by
  induction k generalizing t s with
  | zero => simp [advanceLoop]
  | succ k ih =>
    cases hstep : stepState m h2 dt s with
    | error e0 => simp [advanceLoop, hstep] at h
    | ok s' =>
      have hunf : advanceLoop m h2 dt (k + 1) t s
          = ((t + dt, s') :: (advanceLoop m h2 dt k (t + dt) s').1,
             (advanceLoop m h2 dt k (t + dt) s').2) := by
        simp [advanceLoop, hstep]
      rw [hunf] at h ⊢
      dsimp only at h ⊢
      obtain ⟨ihlen, ihget, ihlast, _⟩ := ih (t + dt) s' h
      refine ⟨by simpa using ihlen, ?_, ?_, ?_⟩
      · intro j hj
        cases j with
        | zero =>
          simp only [List.get_eq_getElem, List.getElem_cons_zero]
          push_cast
          ring
        | succ j' =>
          have hj' : j' < (advanceLoop m h2 dt k (t + dt) s').1.length := by
            simpa using hj
          have hv := ihget j' hj'
          simp only [List.get_eq_getElem, List.getElem_cons_succ]
          simp only [List.get_eq_getElem] at hv
          rw [hv]
          push_cast
          ring
      · intro e he
        cases hrest : (advanceLoop m h2 dt k (t + dt) s').1 with
        | nil =>
          rw [hrest] at he
          simp only [List.getLast?_singleton] at he
          have hk0 : k = 0 := by
            rw [hrest] at ihlen
            simpa using ihlen.symm
          have he' : e = (t + dt, s') := by simpa [eq_comm] using he
          rw [he', hk0]
          push_cast
          ring
        | cons r rs =>
          rw [hrest, List.getLast?_cons_cons] at he
          have := ihlast e (by rw [hrest]; exact he)
          rw [this]
          push_cast
          ring
      · intro _
        exact ⟨s', rfl, by simp⟩

/-- C1: on a Ready Simulator, a successful `advance(duration, steps)`
with `duration > 0` and `steps ≥ 1` appends exactly `steps` new entries
to the TimeSeries, with times `t + (j+1)*dt` for `dt = duration/steps`
continuing from the last recorded time `t`; the first appended State is
the accepted step from the last recorded State (resumption, not a
restart from time 0), and the new last recorded time is `t + duration`,
from which a subsequent `advance` with a different `(duration, steps)`
pair resumes. -/
theorem advance_appends_spec (p : Pop) (d : ℚ) (k : ℕ) (t : ℚ) (s : State)
    (hlast : p.ts.getLast? = some (t, s)) (hd : 0 < d) (hk : 1 ≤ k)
    (hok : (advance p d k).2 = none) :
    ∃ tail,
      (advance p d k).1.ts = p.ts ++ tail ∧
      tail.length = k ∧
      (∀ (j : ℕ) (hj : j < tail.length),
          (tail.get ⟨j, hj⟩).1 = t + ((j : ℚ) + 1) * (d / (k : ℚ))) ∧
      (∃ s1, stepState p.model (p.grid.spacing ^ 2) (d / (k : ℚ)) s = Except.ok s1 ∧
          tail.head? = some (t + d / (k : ℚ), s1)) ∧
      (∀ e ∈ (advance p d k).1.ts.getLast?, e.1 = t + d) := by
  obtain ⟨hts, herr⟩ := advance_ts_eq p d k t s hlast
  rw [herr] at hok
  obtain ⟨hlen, hget, hlastT, hhead⟩ :=
    advanceLoop_ok_spec p.model (p.grid.spacing ^ 2) (d / (k : ℚ)) k t s hok
  refine ⟨_, hts, hlen, hget, hhead hk, ?_⟩
  intro e he
  rw [hts] at he
  have hne : (advanceLoop p.model (p.grid.spacing ^ 2) (d / (k : ℚ)) k t s).1 ≠ [] := by
    intro hnil
    rw [hnil] at hlen
    simp only [List.length_nil] at hlen
    omega
  rw [List.getLast?_append_of_ne_nil _ hne] at he
  have hkq : (k : ℚ) ≠ 0 := by
    exact_mod_cast Nat.pos_of_ne_zero (by omega) |>.ne'
  have := hlastT e he
  rw [this, mul_div_cancel₀ d hkq]

/-- Sum of an elementwise `p - c*q` combination of equal-length lists. -/
theorem sum_zipWith_submul (c : ℚ) :
    ∀ (xs ys : List ℚ), xs.length = ys.length →
      (List.zipWith (fun p q => p - c * q) xs ys).sum = xs.sum - c * ys.sum := by
  intro xs
  induction xs with
  | nil =>
    intro ys h
    cases ys with
    | nil => simp
    | cons y ys => simp at h
  | cons x xs ih =>
    intro ys h
    cases ys with
    | nil => simp at h
    | cons y ys =>
      simp only [List.zipWith_cons_cons, List.sum_cons]
      rw [ih ys (by simpa using h)]
      ring

/-- Sum of an elementwise difference of equal-length lists. -/
theorem sum_zipWith_sub :
    ∀ (xs ys : List ℚ), xs.length = ys.length →
      (List.zipWith (fun p q => p - q) xs ys).sum = xs.sum - ys.sum := by
  intro xs
  induction xs with
  | nil =>
    intro ys h
    cases ys with
    | nil => simp
    | cons y ys => simp at h
  | cons x xs ih =>
    intro ys h
    cases ys with
    | nil => simp at h
    | cons y ys =>
      simp only [List.zipWith_cons_cons, List.sum_cons]
      rw [ih ys (by simpa using h)]
      ring

/-- The flux divergence telescopes: its total over the grid vanishes
(no flux crosses either domain end). -/
theorem divFlux_sum (F : List ℚ) : (divFlux F).sum = 0 := by
  unfold divFlux
  rw [sum_zipWith_sub _ _ (by simp)]
  simp

/-- Dividing every entry divides the sum. -/
theorem sum_map_div (l : List ℚ) (c : ℚ) :
    (l.map (fun y => y / c)).sum = l.sum / c := by
  induction l with
  | nil => simp
  | cons x xs ih => simp [ih, add_div]

/-- The discrete Neumann diffusion operator has zero total. -/
theorem applyL_sum (a x : List ℚ) (h2 : ℚ) : (applyL a x h2).sum = 0 := by
  unfold applyL
  rw [sum_map_div, divFlux_sum, zero_div]

/-- Length of the discrete diffusion operator's output. -/
theorem applyL_length (a x : List ℚ) (h2 : ℚ) (hx : x ≠ []) (ha : x.length ≤ a.length) :
    (applyL a x h2).length = x.length := by
  unfold applyL divFlux fluxes interCoef
  cases x with
  | nil => exact absurd rfl hx
  | cons q qs =>
    simp only [List.length_map, List.length_zipWith, List.length_append,
      List.length_cons, List.length_tail] at ha ⊢
    omega

/-- An accepted single-species solve preserves the total and the
length of its right-hand side. -/
theorem stepSpecies_ok_spec (a b x : List ℚ) (dt h2 : ℚ) (hab : b.length ≤ a.length)
    (h : stepSpecies a b dt h2 = Except.ok x) :
    x.sum = b.sum ∧ x.length = b.length := by
  simp only [stepSpecies] at h
  cases hth : thomas (triSub (interCoef a) (dt / h2)) (triDiag (interCoef a) (dt / h2))
      (triSup (interCoef a) (dt / h2)) b with
  | none =>
    rw [hth] at h
    cases h
  | some x0 =>
    rw [hth] at h
    dsimp only at h
    by_cases hcond : x0.length = b.length ∧ applyA a x0 dt h2 = b
    · rw [if_pos hcond] at h
      obtain ⟨hxl, hA⟩ := hcond
      cases h
      refine ⟨?_, hxl⟩
      by_cases hx0 : x = []
      · subst hx0
        unfold applyA at hA
        simp only [List.zipWith_nil_left] at hA
        rw [← hA]
      · have hlen2 : (applyL a x h2).length = x.length :=
          applyL_length a x h2 hx0 (le_trans (le_of_eq hxl) hab)
        unfold applyA at hA
        calc x.sum = x.sum - dt * (applyL a x h2).sum := by
              rw [applyL_sum]; ring
          _ = (List.zipWith (fun xi li => xi - dt * li) x (applyL a x h2)).sum :=
              (sum_zipWith_submul dt _ _ hlen2.symm).symm
          _ = b.sum := by rw [hA]
    · rw [if_neg hcond] at h
      cases h

/-- With all reaction coefficients zero the reaction array is all
zeros. -/
theorem reactArr_zero (m : SKT) (i : Fin 2) (s : State) (hR : ∀ i j, m.R i j = 0) :
    m.reactArr i s = List.zipWith (fun _ _ => (0 : ℚ)) s.u s.v := by
  fin_cases i <;> simp [SKT.reactArr, hR]

/-- Every entry of an all-zero zip is zero. -/
theorem mem_zipWith_zero :
    ∀ (l1 l2 : List ℚ), ∀ z ∈ List.zipWith (fun _ _ => (0 : ℚ)) l1 l2, z = 0 := by
  intro l1
  induction l1 with
  | nil => simp
  | cons x xs ih =>
    intro l2 z hz
    cases l2 with
    | nil => simp at hz
    | cons y ys =>
      simp only [List.zipWith_cons_cons, List.mem_cons] at hz
      rcases hz with h | h
      · exact h
      · exact ih ys z h

/-- Adding `dt` times an all-zero list changes nothing. -/
theorem zipWith_add_zeros (dt : ℚ) :
    ∀ (xs zs : List ℚ), (∀ z ∈ zs, z = 0) → xs.length ≤ zs.length →
      List.zipWith (fun p r => p + dt * r) xs zs = xs := by
  intro xs
  induction xs with
  | nil => simp
  | cons x xs ih =>
    intro zs hz hl
    cases zs with
    | nil => simp at hl
    | cons z zs =>
      have hz0 : z = 0 := hz z (by simp)
      simp only [List.zipWith_cons_cons, hz0, mul_zero, add_zero, List.cons.injEq, true_and]
      exact ih zs (fun w hw => hz w (by simp [hw])) (by simpa using hl)

/-- An accepted full step with zero reaction terms preserves the total
discrete mass `sum u + sum v` and both vector lengths. -/
theorem stepState_ok_mass (m : SKT) (h2 dt : ℚ) (s s' : State)
    (hR : ∀ i j, m.R i j = 0) (hlen : s.u.length = s.v.length)
    (h : stepState m h2 dt s = Except.ok s') :
    s'.u.sum + s'.v.sum = s.u.sum + s.v.sum ∧
    s'.u.length = s.u.length ∧ s'.v.length = s.v.length := by
  have hz := mem_zipWith_zero s.u s.v
  have hzl : (List.zipWith (fun _ _ => (0 : ℚ)) s.u s.v).length
      = min s.u.length s.v.length := by
    simp [List.length_zipWith]
  unfold stepState at h
  rw [reactArr_zero m 0 s hR, reactArr_zero m 1 s hR,
    zipWith_add_zeros dt s.u _ hz (by rw [hzl]; omega),
    zipWith_add_zeros dt s.v _ hz (by rw [hzl]; omega)] at h
  have hau : (m.diffCoefArr 0 s).length = min s.u.length s.v.length := by
    simp [SKT.diffCoefArr]
  have hav : (m.diffCoefArr 1 s).length = min s.u.length s.v.length := by
    simp [SKT.diffCoefArr]
  split at h
  · cases h
  · rename_i u' hu
    split at h
    · cases h
    · rename_i v' hv
      cases h
      obtain ⟨hsu, hlu⟩ := stepSpecies_ok_spec _ _ _ dt h2 (by rw [hau]; omega) hu
      obtain ⟨hsv, hlv⟩ := stepSpecies_ok_spec _ _ _ dt h2 (by rw [hav]; omega) hv
      exact ⟨by rw [hsu, hsv], hlu, hlv⟩

/-- With zero reaction terms every entry recorded by the advance loop
carries the same total discrete mass as the resumption State. -/
theorem advanceLoop_mass (m : SKT) (h2 dt : ℚ) (hR : ∀ i j, m.R i j = 0) (k : ℕ)
    (t : ℚ) (s : State) (hlen : s.u.length = s.v.length) :
    ∀ e ∈ (advanceLoop m h2 dt k t s).1,
      e.2.u.sum + e.2.v.sum = s.u.sum + s.v.sum := by
  induction k generalizing t s with
  | zero => simp [advanceLoop]
  | succ k ih =>
    cases hstep : stepState m h2 dt s with
    | error e0 => simp [advanceLoop, hstep]
    | ok s' =>
      obtain ⟨hm, hlu, hlv⟩ := stepState_ok_mass m h2 dt s s' hR hlen hstep
      intro e he
      simp only [advanceLoop, hstep, List.mem_cons] at he
      rcases he with he | he
      · rw [he]
        exact hm
      · rw [ih (t + dt) s' (by rw [hlu, hlv]; exact hlen) e he, hm]

/-- C4: for a Simulator whose Model has all reaction coefficients zero,
the discrete sum of `u + v` over all grid points is conserved by every
accepted time step of an `advance` call — the zero-flux Neumann
boundary operator admits no flux across either domain end (in exact
arithmetic the conservation is exact). -/
theorem mass_conserved (p : Pop) (d : ℚ) (k : ℕ) (t : ℚ) (s : State)
    (hR : ∀ i j, p.model.R i j = 0) (hlen : s.u.length = s.v.length)
    (hlast : p.ts.getLast? = some (t, s)) :
    ∃ tail, (advance p d k).1.ts = p.ts ++ tail ∧
      ∀ e ∈ tail, e.2.u.sum + e.2.v.sum = s.u.sum + s.v.sum := by
  obtain ⟨hts, _⟩ := advance_ts_eq p d k t s hlast
  exact ⟨_, hts, advanceLoop_mass p.model (p.grid.spacing ^ 2) (d / (k : ℚ)) hR k t s hlen⟩

/-- C10: the public construction surface performs initialization itself —
it builds the Grid, samples `u0` and `v0`, builds the `t = 0` State and
seeds the TimeSeries with it — so `advance` may be called immediately on
a freshly constructed Pop and the Uninitialized state is unreachable
through the public construction surface. -/
theorem mkPop_ready (lower upper : ℚ) (n : ℕ) (u0 v0 : ℚ → ℚ) (m : SKT) (p : Pop)
    (h : mkPop lower upper n u0 v0 m = Except.ok p) :
    ∃ g, mkGrid lower upper n = Except.ok g ∧
      p.grid = g ∧ p.model = m ∧
      p.ts = [(0, ⟨g.sample u0, g.sample v0⟩)] ∧
      p.ts ≠ [] ∧
      ∀ d k, (advance p d k).2 ≠ some SimError.notInit := by
  unfold mkPop at h
  cases hg : mkGrid lower upper n with
  | error e =>
    rw [hg] at h
    cases h
  | ok g =>
    rw [hg] at h
    dsimp only [Except.map] at h
    cases h
    refine ⟨g, rfl, rfl, rfl, rfl, by simp [initPop], ?_⟩
    intro d k hcontra
    rw [advance_notInit_iff] at hcontra
    simp [initPop] at hcontra

/-- Witness for C10 at concrete construction arguments. -/
theorem mkPop_ready_witness :
    ∃ g, mkGrid 0 1 3 = Except.ok g ∧
      wPop0.grid = g ∧ wPop0.model = wModel0 ∧
      wPop0.ts = [(0, ⟨g.sample (fun _ => 1), g.sample (fun _ => 1)⟩)] ∧
      wPop0.ts ≠ [] ∧
      ∀ d k, (advance wPop0 d k).2 ≠ some SimError.notInit := by
  refine mkPop_ready 0 1 3 (fun _ => 1) (fun _ => 1) wModel0 wPop0 ?_
  have hg : mkGrid 0 1 3 = Except.ok wGrid := by
    rw [mkGrid]
    norm_num [wGrid]
  rw [mkPop, hg]
  rfl

/-- Any error surfaced by the advance loop is
`NumericalInstabilityError`. -/
theorem advanceLoop_error_eq (m : SKT) (h2 dt : ℚ) (k : ℕ) (t : ℚ) (s : State)
    (e : SimError) (h : (advanceLoop m h2 dt k t s).2 = some e) :
    e = SimError.numericalInstability := by
  induction k generalizing t s with
  | zero => simp [advanceLoop] at h
  | succ k ih =>
    cases hstep : stepState m h2 dt s with
    | error e0 =>
      simp only [advanceLoop, hstep] at h
      cases h
      exact stepState_error_eq m h2 dt s e hstep
    | ok s' =>
      simp only [advanceLoop, hstep] at h
      exact ih (t + dt) s' h

/-- C9 counterexample: stability is not monotone in the step count — on
`cPop`, `advance(1/2, 1)` succeeds with no instability error, yet the
finer subdivision `advance(1/2, 2)` of the same duration fails with
`NumericalInstabilityError` (the halved step size puts a zero pivot in
the linearized system). -/
theorem stability_not_monotone_counter :
    (advance cPop (1/2) 1).2 = none ∧
    (1 : ℕ) ≤ 2 ∧ (0 : ℚ) < 1/2 ∧
    (advance cPop (1/2) 2).2 = some SimError.numericalInstability := by
  refine ⟨?_, by norm_num, by norm_num, ?_⟩ <;>
    norm_num [advance, cPop, initPop, advanceLoop, stepState, stepSpecies, thomas, sweep,
      backSub, interCoef, fluxes, divFlux, applyL, applyA, triSub, triSup, triDiag,
      SKT.diffCoefArr, SKT.reactArr, cModel, wGrid, Grid.sample, Grid.points, Grid.spacing,
      List.range_succ, Matrix.cons_val_zero, Matrix.cons_val_one, Matrix.head_cons]

/-- C9 (amended): refining the subdivision of a duration can introduce a
`NumericalInstabilityError`, so success at `(duration, steps)` does not
extend to all `steps' ≥ steps`; what does hold is that on a Ready
Simulator every failing `advance` surfaces exactly
`NumericalInstabilityError` — never a silent failure or another error
kind. -/
theorem advance_error_is_instability (p : Pop) (d : ℚ) (k : ℕ) (e : SimError)
    (hne : p.ts ≠ []) (h : (advance p d k).2 = some e) :
    e = SimError.numericalInstability := by
  cases hl : p.ts.getLast? with
  | none => exact absurd (List.getLast?_eq_none_iff.mp hl) hne
  | some e0 =>
    obtain ⟨t, s⟩ := e0
    obtain ⟨_, herr⟩ := advance_ts_eq p d k t s hl
    rw [herr] at h
    exact advanceLoop_error_eq p.model (p.grid.spacing ^ 2) (d / (k : ℚ)) k t s e h

/-- Witness for the amended C9 at the concrete failing call. -/
theorem advance_error_is_instability_witness :
    SimError.numericalInstability = SimError.numericalInstability := by
  refine advance_error_is_instability cPop (1/2) 2 SimError.numericalInstability ?_ ?_
  · simp [cPop, initPop]
  · norm_num [advance, cPop, initPop, advanceLoop, stepState, stepSpecies, thomas, sweep,
      backSub, interCoef, fluxes, divFlux, applyL, applyA, triSub, triSup, triDiag,
      SKT.diffCoefArr, SKT.reactArr, cModel, wGrid, Grid.sample, Grid.points, Grid.spacing,
      List.range_succ, Matrix.cons_val_zero, Matrix.cons_val_one, Matrix.head_cons]

/-- Witness for C1 at a concrete simulator and call. -/
theorem advance_appends_spec_witness :
    ∃ tail,
      (advance wPop0 1 1).1.ts = wPop0.ts ++ tail ∧
      tail.length = 1 ∧
      (∀ (j : ℕ) (hj : j < tail.length),
          (tail.get ⟨j, hj⟩).1 = 0 + ((j : ℚ) + 1) * (1 / ((1 : ℕ) : ℚ))) ∧
      (∃ s1, stepState wPop0.model (wPop0.grid.spacing ^ 2) (1 / ((1 : ℕ) : ℚ)) wS0
            = Except.ok s1 ∧
          tail.head? = some (0 + 1 / ((1 : ℕ) : ℚ), s1)) ∧
      (∀ e ∈ (advance wPop0 1 1).1.ts.getLast?, e.1 = 0 + 1) := by
  refine advance_appends_spec wPop0 1 1 0 wS0 rfl (by norm_num) (by norm_num) ?_
  norm_num [advance, wPop0, initPop, advanceLoop, stepState, stepSpecies, thomas, sweep,
    backSub, interCoef, fluxes, divFlux, applyL, applyA, triSub, triSup, triDiag,
    SKT.diffCoefArr, SKT.reactArr, wModel0, wGrid, Grid.sample, Grid.points, Grid.spacing,
    List.range_succ, Matrix.cons_val_zero, Matrix.cons_val_one, Matrix.head_cons]

/-- Witness for C4 at a concrete pure-diffusion simulator. -/
theorem mass_conserved_witness :
    ∃ tail, (advance wPopD 1 2).1.ts = wPopD.ts ++ tail ∧
      ∀ e ∈ tail, e.2.u.sum + e.2.v.sum = wSD.u.sum + wSD.v.sum := by
  refine mass_conserved wPopD 1 2 0 wSD ?_ ?_ rfl
  · intro i j
    fin_cases i <;> fin_cases j <;> rfl
  · rfl

/-- Witness for C5 at a concrete simulator and call, with the
strict-increase hypotheses discharged. -/
theorem timeSeries_invariants_witness :
    (∃ tail, (advance wPop0 1 1).1.ts = wPop0.ts ++ tail ∧
       ∀ e ∈ tail, ∃ s0,
         stepState wPop0.model (wPop0.grid.spacing ^ 2) (1 / ((1 : ℕ) : ℚ)) s0
           = Except.ok e.2) ∧
    List.Chain' (fun a b : ℚ × State => a.1 < b.1) (advance wPop0 1 1).1.ts ∧
    List.Chain' (fun a b : ℚ × State => a.1 < b.1) (runCalls wPop0 [(1, 1)]).ts := by
  obtain ⟨h1, h2, _, h4⟩ := timeSeries_invariants wPop0 1 1 [(1, 1)]
  have hc : List.Chain' (fun a b : ℚ × State => a.1 < b.1) wPop0.ts := by
    simp [wPop0, initPop]
  exact ⟨h1, h2 hc (by norm_num) (by norm_num),
    h4 hc (by intro c hcm; simp at hcm; simp [hcm])⟩

end PySpecies
